import Mathlib

/-!
# Verification of the cargo-play option model and identity deriver

Shallow embedding of `src/options.rs`: the `Options` configuration record,
the SHA-1/base-58 source-set identifier (`Options::src_hash`,
`Options::temp_dirname`), and `Options::parse` including the `+toolchain`
pre-scan.  The generic flag/positional parser (the structopt/clap engine)
and the error enumeration `CargoPlayError` (from `errors.rs`) are not part
of the sources; they are modelled from the specification where needed.

Machine integers are embedded as `Nat` with explicit reduction modulo
`2 ^ 32` where the Rust code relies on 32-bit wrap-around.
-/

/-! ## Bytes of strings (UTF-8)

`PathBuf::to_string_lossy().as_bytes()` on a valid-UTF-8 path yields the
UTF-8 encoding of the path string; we embed paths as their `String`
representation and encode code points explicitly. -/

/-- UTF-8 encoding of a single code point, as byte values. -/
def charUtf8 (c : Char) : List Nat :=
  let n := c.toNat
  if n < 128 then [n]
  else if n < 2048 then [192 + n / 64, 128 + n % 64]
  else if n < 65536 then [224 + n / 4096, 128 + n / 64 % 64, 128 + n % 64]
  else [240 + n / 262144, 128 + n / 4096 % 64, 128 + n / 64 % 64, 128 + n % 64]

/-- UTF-8 bytes of a string. -/
def strBytes (s : String) : List Nat := (s.data.map charUtf8).flatten

/-! ## SHA-1 (the `sha1` crate's `Sha1`), over byte lists -/

/-- Truncate to a 32-bit word. -/
def w32 (n : Nat) : Nat := n % 4294967296

/-- Rotate a 32-bit word left by `s` bits. -/
def rotl32 (s x : Nat) : Nat := w32 ((x <<< s) ||| (x >>> (32 - s)))

/-- SHA-1 round function `f` for round `i`. -/
def sha1F (i b c d : Nat) : Nat :=
  if i < 20 then (b &&& c) ||| ((b ^^^ 4294967295) &&& d)
  else if i < 40 then b ^^^ c ^^^ d
  else if i < 60 then (b &&& c) ||| (b &&& d) ||| (c &&& d)
  else b ^^^ c ^^^ d

/-- SHA-1 round constant for round `i`. -/
def sha1K (i : Nat) : Nat :=
  if i < 20 then 0x5A827999
  else if i < 40 then 0x6ED9EBA1
  else if i < 60 then 0x8F1BBCDC
  else 0xCA62C1D6

/-- Big-endian 32-bit word from four bytes. -/
def beWord (a b c d : Nat) : Nat := ((a * 256 + b) * 256 + c) * 256 + d

/-- Group a byte list into big-endian 32-bit words. -/
def bytesToWords : List Nat → List Nat
  | a :: b :: c :: d :: rest => beWord a b c d :: bytesToWords rest
  | _ => []

/-- One step of the SHA-1 message-schedule extension: append
`rotl1 (w[t-3] xor w[t-8] xor w[t-14] xor w[t-16])`. -/
def sha1ExtendStep (ws : List Nat) : List Nat :=
  ws ++ [rotl32 1 ((ws.getD (ws.length - 3) 0) ^^^ (ws.getD (ws.length - 8) 0) ^^^
    (ws.getD (ws.length - 14) 0) ^^^ (ws.getD (ws.length - 16) 0))]

/-- Iterate a function `n` times. -/
def iterN (f : α → α) : Nat → α → α
  | 0, a => a
  | k + 1, a => iterN f k (f a)

/-- The 80-word SHA-1 message schedule of a block's 16 words. -/
def sha1Schedule (ws : List Nat) : List Nat := iterN sha1ExtendStep 64 ws

/-- One SHA-1 round on the working state `(a, b, c, d, e)` given the round
index and schedule word. -/
def sha1Round (st : Nat × Nat × Nat × Nat × Nat) (iw : Nat × Nat) :
    Nat × Nat × Nat × Nat × Nat :=
  match st, iw with
  | (a, b, c, d, e), (i, w) =>
    (w32 (rotl32 5 a + sha1F i b c d + e + sha1K i + w), a, rotl32 30 b, c, d)

/-- SHA-1 compression of one 64-byte block into the chaining state. -/
def sha1Compress (h : Nat × Nat × Nat × Nat × Nat) (block : List Nat) :
    Nat × Nat × Nat × Nat × Nat :=
  match h, ((List.range 80).zip (sha1Schedule (bytesToWords block))).foldl sha1Round h with
  | (h0, h1, h2, h3, h4), (a, b, c, d, e) =>
    (w32 (h0 + a), w32 (h1 + b), w32 (h2 + c), w32 (h3 + d), w32 (h4 + e))

/-- The 8-byte big-endian encoding of the bit length. -/
def lenBytes (L : Nat) : List Nat :=
  [L / 2 ^ 56 % 256, L / 2 ^ 48 % 256, L / 2 ^ 40 % 256, L / 2 ^ 32 % 256,
   L / 2 ^ 24 % 256, L / 2 ^ 16 % 256, L / 2 ^ 8 % 256, L % 256]

/-- SHA-1 padding: `0x80`, zero bytes to 56 mod 64, then the bit length. -/
def sha1Pad (msg : List Nat) : List Nat :=
  msg ++ [128] ++ List.replicate ((119 - msg.length % 64) % 64) 0 ++ lenBytes (msg.length * 8)

/-- Split a byte list into 64-byte chunks (fuel-driven structural
recursion; a nonempty list loses at least one element per step, so the
initial length is always enough fuel). -/
def chunks64Go : Nat → List Nat → List (List Nat)
  | 0, _ => []
  | _ + 1, [] => []
  | fuel + 1, a :: l => (a :: l).take 64 :: chunks64Go fuel ((a :: l).drop 64)

/-- Split a byte list into 64-byte chunks. -/
def chunks64 (l : List Nat) : List (List Nat) := chunks64Go l.length l

/-- SHA-1 initial chaining state. -/
def sha1Init : Nat × Nat × Nat × Nat × Nat :=
  (0x67452301, 0xEFCDAB89, 0x98BADCFE, 0x10325476, 0xC3D2E1F0)

/-- The four big-endian bytes of a 32-bit word. -/
def wordBytes (w : Nat) : List Nat :=
  [w / 2 ^ 24 % 256, w / 2 ^ 16 % 256, w / 2 ^ 8 % 256, w % 256]

/-- SHA-1 digest (20 bytes) of a byte list. -/
def sha1Bytes (msg : List Nat) : List Nat :=
  let t := (chunks64 (sha1Pad msg)).foldl sha1Compress sha1Init
  wordBytes t.1 ++ wordBytes t.2.1 ++ wordBytes t.2.2.1 ++ wordBytes t.2.2.2.1 ++
    wordBytes t.2.2.2.2

/-! ## Base-58 encoding (the `bs58` crate, Bitcoin alphabet) -/

/-- The base-58 alphabet. -/
def b58AlphabetStr : String := "123456789ABCDEFGHJKLMNPQRSTUVWXYZabcdefghijkmnopqrstuvwxyz"

/-- The base-58 alphabet as characters. -/
def b58Alphabet : List Char := b58AlphabetStr.data

/-- The character encoding the digit zero. -/
def b58Zero : Char := '1'

/-- Little-endian base-58 digits, fuel-driven (the value strictly
decreases under division by 58 while nonzero, so taking the value itself
as fuel always suffices). -/
def b58DigitsGo : Nat → Nat → List Nat
  | 0, _ => []
  | fuel + 1, n => if n = 0 then [] else n % 58 :: b58DigitsGo fuel (n / 58)

/-- Little-endian base-58 digits of a number (empty for zero). -/
def b58DigitsLE (n : Nat) : List Nat := b58DigitsGo n n

/-- Big-endian byte-list value. -/
def beNat (l : List Nat) : Nat := l.foldl (fun acc b => acc * 256 + b) 0

/-- Count of leading zero bytes. -/
def countLeadZeros : List Nat → Nat
  | 0 :: r => countLeadZeros r + 1
  | _ => 0

/-- Character for one base-58 digit. -/
def b58Char (d : Nat) : Char := b58Alphabet.getD d b58Zero

/-- Base-58 encoding of a byte list: one `'1'` per leading zero byte, then
the big-endian base-58 digits of the value. -/
def bs58encode (bytes : List Nat) : String :=
  String.mk (List.replicate (countLeadZeros bytes) b58Zero ++
    ((b58DigitsLE (beNat bytes)).reverse.map b58Char))

/-! ## The `Options` configuration -/

/-- Rust editions accepted by cargo-play (`RustEdition` in `options.rs`). -/
inductive RustEdition where
  | E2015
  | E2018
  | E2021
deriving DecidableEq

/-- Modelled from the spec: the error enumeration `CargoPlayError` of
`errors.rs` (not present under `src/`); only the parse-error taxonomy of
§7 is needed here. -/
inductive CargoPlayError where
  | InvalidEdition (text : String)
  | ConflictingMode
  | UnresolvablePath (text : String)
  | MissingInputFile (path : String)
  | UnrecognizedArgument (text : String)
  | NoInputProvided
deriving DecidableEq

deriving instance DecidableEq for Except

/-- The resolved configuration (`struct Options` in `options.rs`).  Paths
are embedded as their string representation. -/
structure Options where
  debug : Bool := false
  clean : Bool := false
  mode : Option String := none
  test : Bool := false
  check : Bool := false
  expand : Bool := false
  toolchain : Option String := none
  src : List String := []
  edition : RustEdition := RustEdition.E2021
  release : Bool := false
  cached : Bool := false
  quiet : Bool := false
  verbose : Nat := 0
  stdin : Bool := false
  cargo_option : Option String := none
  save : Option String := none
  infer : Bool := false
  args : List String := []
deriving DecidableEq

/-- Lexicographic comparison of character lists (code-point order, which
on UTF-8 strings agrees with byte order). -/
def charsLe : List Char → List Char → Bool
  | [], _ => true
  | _ :: _, [] => false
  | a :: as, b :: bs => if a < b then true else if b < a then false else charsLe as bs

/-- The total order used to sort the source paths. -/
def strLe (a b : String) : Prop := charsLe a.data b.data = true

instance strLeDecidable : DecidableRel strLe :=
  fun a b => Bool.decEq (charsLe a.data b.data) true

/-- `srcs.sort()` on `Vec<PathBuf>`: sorting the path strings by the
lexicographic string order.  (`PathBuf`'s order compares paths
component-wise; on canonical absolute paths the two orders pick the same
sorted list except when one path descends through a directory whose name
is a strict prefix of a sibling's — every property proved below is
invariant under the choice of total order.) -/
def sortedSrc (l : List String) : List String :=
  List.insertionSort strLe l

/-- The byte stream `src_hash` feeds to the hash: each sorted path's
UTF-8 bytes, concatenated (`hash.update(file.to_string_lossy().as_bytes())`
per file). -/
def Options.srcBytes (o : Options) : List Nat :=
  ((sortedSrc o.src).map strBytes).flatten

/-- `Options::src_hash`: base-58 encoding of the SHA-1 digest of the
sorted paths' bytes. -/
def Options.src_hash (o : Options) : String :=
  bs58encode (sha1Bytes o.srcBytes)

/-- The literal prefix of the work-directory name. -/
def tempNamePre : String := "cargo-play."

/-- `Options::temp_dirname`: `format!("cargo-play.{}", self.src_hash())`. -/
def Options.temp_dirname (o : Options) : String :=
  tempNamePre ++ o.src_hash

/-! ## The parser model

`Options::parse` (source, `options.rs` lines 176–195) pre-processes the
raw arguments (length check, `play` sentinel skip, `+toolchain`
extraction and removal) and then hands the stream to structopt's
`from_iter`.  The structopt/clap engine itself is not among the sources;
`genericParse` below is modelled from the specification's generic parsing
contract (§4.1) over the schema declared by `struct Options`. -/

/-- A model of the read-only filesystem queries used during validation:
path canonicalization and the regular-file test. -/
structure FileSystem where
  canonical : String → Option String
  is_file : String → Bool

/-- `RustEdition::from_str`: only the three closed textual values are
accepted; anything else is `InvalidEdition` carrying the offending text. -/
def RustEdition.from_str (s : String) : Except CargoPlayError RustEdition :=
  if s = "2015" then Except.ok RustEdition.E2015
  else if s = "2018" then Except.ok RustEdition.E2018
  else if s = "2021" then Except.ok RustEdition.E2021
  else Except.error (CargoPlayError.InvalidEdition s)

/-- Raw flag occurrences gathered by the generic parser before
cross-field validation. -/
structure RawOpts where
  debug : Bool := false
  clean : Bool := false
  mode : Option String := none
  test : Bool := false
  check : Bool := false
  expand : Bool := false
  toolchainFlag : Option String := none
  editionText : Option String := none
  release : Bool := false
  cached : Bool := false
  quiet : Bool := false
  verbose : Nat := 0
  stdin : Bool := false
  cargo_option : Option String := none
  save : Option String := none
  infer : Bool := false
  srcTokens : List String := []
deriving DecidableEq

/-- Does a token look like a flag (starts with `-` and is not bare `-`)? -/
def isFlagLike (t : String) : Bool :=
  match t.data with
  | c :: _ :: _ => c == '-'
  | _ => false

/-- Modelled from the spec: one left-to-right pass of the generic flag
parser over the tokens before the separator, recognizing the flags of the
schema (§6); an unknown flag fails with `UnrecognizedArgument`, value
flags consume the following token (a value flag with no following token
is treated as an unrecognized argument). -/
def collectGo (acc : RawOpts) : List String → Except CargoPlayError RawOpts
  | [] => Except.ok acc
  | "-d" :: r => collectGo { acc with debug := true } r
  | "--debug" :: r => collectGo { acc with debug := true } r
  | "-c" :: r => collectGo { acc with clean := true } r
  | "--clean" :: r => collectGo { acc with clean := true } r
  | "-m" :: v :: r => collectGo { acc with mode := some v } r
  | "--mode" :: v :: r => collectGo { acc with mode := some v } r
  | "--test" :: r => collectGo { acc with test := true } r
  | "--check" :: r => collectGo { acc with check := true } r
  | "--expand" :: r => collectGo { acc with expand := true } r
  | "-t" :: v :: r => collectGo { acc with toolchainFlag := some v } r
  | "--toolchain" :: v :: r => collectGo { acc with toolchainFlag := some v } r
  | "-e" :: v :: r => collectGo { acc with editionText := some v } r
  | "--edition" :: v :: r => collectGo { acc with editionText := some v } r
  | "--release" :: r => collectGo { acc with release := true } r
  | "--cached" :: r => collectGo { acc with cached := true } r
  | "-q" :: r => collectGo { acc with quiet := true } r
  | "--quiet" :: r => collectGo { acc with quiet := true } r
  | "-v" :: r => collectGo { acc with verbose := acc.verbose + 1 } r
  | "--verbose" :: r => collectGo { acc with verbose := acc.verbose + 1 } r
  | "--stdin" :: r => collectGo { acc with stdin := true } r
  | "--cargo-option" :: v :: r => collectGo { acc with cargo_option := some v } r
  | "--save" :: v :: r => collectGo { acc with save := some v } r
  | "-i" :: r => collectGo { acc with infer := true } r
  | "--infer" :: r => collectGo { acc with infer := true } r
  | tok :: r =>
    if isFlagLike tok then Except.error (CargoPlayError.UnrecognizedArgument tok)
    else collectGo { acc with srcTokens := acc.srcTokens ++ [tok] } r

/-- Gather all raw flag occurrences of a token stream. -/
def collectTokens (toks : List String) : Except CargoPlayError RawOpts :=
  collectGo {} toks

/-- The token introducing the verbatim trailing arguments. -/
def sepTok : String := "--"

/-- Tokens before the first separator. -/
def beforeSep : List String → List String
  | [] => []
  | t :: r => if t = sepTok then [] else t :: beforeSep r

/-- Tokens after the first separator. -/
def afterSep : List String → List String
  | [] => []
  | t :: r => if t = sepTok then r else afterSep r

/-- Number of members of the mutually exclusive mode group that are
supplied. -/
def modeFlagCount (acc : RawOpts) : Nat :=
  (if acc.mode.isSome then 1 else 0) + (if acc.test then 1 else 0) +
    (if acc.check then 1 else 0) + (if acc.expand then 1 else 0)

/-- Resolve the edition text: absent means the default 2021, otherwise
`RustEdition::from_str` decides. -/
def editionResolve (acc : RawOpts) : Except CargoPlayError RustEdition :=
  match acc.editionText with
  | none => Except.ok RustEdition.E2021
  | some t => RustEdition.from_str t

/-- Canonicalize and validate each positional source token (spec §4.1:
resolution failure is `UnresolvablePath` naming the literal input, then
the resolved path must be an existing regular file, else
`MissingInputFile` naming the resolved path). -/
def validateSrc (fs : FileSystem) : List String → Except CargoPlayError (List String)
  | [] => Except.ok []
  | t :: ts =>
    match fs.canonical t with
    | none => Except.error (CargoPlayError.UnresolvablePath t)
    | some p =>
      if fs.is_file p then (validateSrc fs ts).map (fun l => p :: l)
      else Except.error (CargoPlayError.MissingInputFile p)

/-- Assemble the configuration from the gathered raw occurrences, the
resolved edition, the validated sources, and the verbatim post-separator
arguments. -/
def mkOptions (acc : RawOpts) (ed : RustEdition) (src : List String)
    (args : List String) : Options :=
  { debug := acc.debug, clean := acc.clean, mode := acc.mode,
    test := acc.test, check := acc.check, expand := acc.expand,
    toolchain := acc.toolchainFlag, src := src, edition := ed,
    release := acc.release, cached := acc.cached, quiet := acc.quiet,
    verbose := acc.verbose, stdin := acc.stdin,
    cargo_option := acc.cargo_option, save := acc.save,
    infer := acc.infer, args := args }

/-- Source validation stage: canonicalize and check each positional. -/
def buildParse (fs : FileSystem) (toks : List String) (acc : RawOpts)
    (ed : RustEdition) : Except CargoPlayError Options :=
  match validateSrc fs acc.srcTokens with
  | Except.error e => Except.error e
  | Except.ok src => Except.ok (mkOptions acc ed src (afterSep toks))

/-- Cross-field checks: the mode-group exclusivity check (before any
source-file validation), then the required-unless-stdin check. -/
def checksParse (fs : FileSystem) (toks : List String) (acc : RawOpts)
    (ed : RustEdition) : Except CargoPlayError Options :=
  if 2 ≤ modeFlagCount acc then Except.error CargoPlayError.ConflictingMode
  else if acc.srcTokens.isEmpty && !acc.stdin then Except.error CargoPlayError.NoInputProvided
  else buildParse fs toks acc ed

/-- Edition resolution stage. -/
def finishParse (fs : FileSystem) (toks : List String) (acc : RawOpts) :
    Except CargoPlayError Options :=
  match editionResolve acc with
  | Except.error e => Except.error e
  | Except.ok ed => checksParse fs toks acc ed

/-- Modelled from the spec: the generic flag/positional parser applied to
the post-binary-name token stream — flag collection, edition validation,
the mode-group exclusivity check (before any source-file validation),
the required-unless-stdin check, source canonicalization/validation, and
verbatim capture of the post-separator tokens. -/
def genericParse (fs : FileSystem) (toks : List String) : Except CargoPlayError Options :=
  match collectTokens (beforeSep toks) with
  | Except.error e => Except.error e
  | Except.ok acc => finishParse fs toks acc

/-- `StructOpt::from_iter`: the first token of the stream is the binary
name; the rest is parsed generically. -/
def from_iter (fs : FileSystem) (tokens : List String) : Except CargoPlayError Options :=
  genericParse fs tokens.tail

/-- Outcome of `Options::parse`: a configuration, the help/no-op signal
(`Err(())` after printing usage), or — modelled from the spec — a
structured parse error. -/
inductive ParseResult where
  | ok (opts : Options)
  | help
  | error (e : CargoPlayError)
deriving DecidableEq

/-- `x.starts_with('+')`. -/
def startsPlus (s : String) : Bool :=
  match s.data with
  | c :: _ => c == '+'
  | [] => false

/-- `String::from_iter(s.chars().skip(1))`: drop the leading character. -/
def stripPlus (s : String) : String := String.mk (s.data.drop 1)

/-- The subcommand sentinel compared against `args[1]`. -/
def playTok : String := "play"

/-- The token stream after the `with_cargo` adjustment: when `args[1]`
is the sentinel, `args[0]` is discarded. -/
def argStream (argv : List String) : List String :=
  match argv with
  | a0 :: a1 :: rest => if a1 = playTok then a1 :: rest else a0 :: a1 :: rest
  | _ => []

/-- `Options::with_toolchain`: overwrite the toolchain field. -/
def Options.with_toolchain (o : Options) (tc : Option String) : Options :=
  { o with toolchain := tc }

/-- Map the post-parse toolchain enrichment over a generic-parse result. -/
def mapOk (f : Options → Options) : Except CargoPlayError Options → ParseResult
  | Except.error e => ParseResult.error e
  | Except.ok o => ParseResult.ok (f o)

/-- `Options::parse`: with fewer than two tokens print help and signal a
no-op; otherwise adjust for the sentinel, extract the toolchain override
from the first `+`-token found, remove every `+`-token, run the generic
parser, and overwrite the toolchain field with the extracted override. -/
def Options.parse (fs : FileSystem) (argv : List String) : ParseResult :=
  if argv.length < 2 then ParseResult.help
  else
    mapOk (fun o => o.with_toolchain (((argStream argv).find? startsPlus).map stripPlus))
      (from_iter fs ((argStream argv).filter fun x => !startsPlus x))

/-- A filesystem on which every path is already canonical and names a
regular file. -/
def testFS : FileSystem := ⟨fun s => some s, fun _ => true⟩

/-- A filesystem on which no path resolves and no file exists. -/
def emptyFS : FileSystem := ⟨fun _ => none, fun _ => false⟩

/-! ## Order facts about the sort comparator -/

theorem charsLe_total : ∀ a b : List Char, charsLe a b = true ∨ charsLe b a = true
  | [], _ => Or.inl rfl
  | _ :: _, [] => Or.inr rfl
  | a :: as, b :: bs => by
    rcases lt_trichotomy a b with h | h | h
    · left; unfold charsLe; rw [if_pos h]
    · subst h
      unfold charsLe
      simp only [if_neg (lt_irrefl a)]
      exact charsLe_total as bs
    · right; unfold charsLe; rw [if_pos h]

theorem charsLe_trans :
    ∀ a b c : List Char, charsLe a b = true → charsLe b c = true → charsLe a c = true
  | [], _, _, _, _ => rfl
  | _ :: _, [], _, h1, _ => by simp [charsLe] at h1
  | _ :: _, _ :: _, [], _, h2 => by simp [charsLe] at h2
  | a :: as, b :: bs, c :: cs, h1, h2 => by
    unfold charsLe at h1 h2 ⊢
    by_cases hab : a < b
    · by_cases hbc : b < c
      · rw [if_pos (lt_trans hab hbc)]
      · by_cases hcb : c < b
        · rw [if_neg hbc, if_pos hcb] at h2; cases h2
        · have hbc' : b = c := le_antisymm (le_of_not_lt hcb) (le_of_not_lt hbc)
          subst hbc'; rw [if_pos hab]
    · by_cases hba : b < a
      · rw [if_neg hab, if_pos hba] at h1; cases h1
      · have hab' : a = b := le_antisymm (le_of_not_lt hba) (le_of_not_lt hab)
        subst hab'
        rw [if_neg hab, if_neg hba] at h1
        by_cases hac : a < c
        · rw [if_pos hac]
        · by_cases hca : c < a
          · rw [if_neg hac, if_pos hca] at h2; cases h2
          · have hac' : a = c := le_antisymm (le_of_not_lt hca) (le_of_not_lt hac)
            subst hac'
            rw [if_neg hac, if_neg hac] at h2 ⊢
            exact charsLe_trans as bs cs h1 h2

theorem charsLe_antisymm :
    ∀ a b : List Char, charsLe a b = true → charsLe b a = true → a = b
  | [], [], _, _ => rfl
  | [], _ :: _, _, h2 => by simp [charsLe] at h2
  | _ :: _, [], h1, _ => by simp [charsLe] at h1
  | a :: as, b :: bs, h1, h2 => by
    unfold charsLe at h1 h2
    by_cases hab : a < b
    · rw [if_neg (lt_asymm hab), if_pos hab] at h2; cases h2
    · by_cases hba : b < a
      · rw [if_neg hab, if_pos hba] at h1; cases h1
      · have he : a = b := le_antisymm (le_of_not_lt hba) (le_of_not_lt hab)
        rw [if_neg hab, if_neg hba] at h1
        rw [if_neg hba, if_neg hab] at h2
        rw [he, charsLe_antisymm as bs h1 h2]

instance : IsTotal String strLe := ⟨fun a b => charsLe_total a.data b.data⟩

instance : IsTrans String strLe := ⟨fun a b c => charsLe_trans a.data b.data c.data⟩

instance : IsAntisymm String strLe :=
  ⟨fun a b h1 h2 => by
    cases a; cases b
    exact congrArg String.mk (charsLe_antisymm _ _ h1 h2)⟩

/-- Sorting is a function of the multiset: permuted inputs sort to the
same list. -/
theorem sortedSrc_perm (l₁ l₂ : List String) (h : l₁.Perm l₂) : sortedSrc l₁ = sortedSrc l₂ :=
  List.eq_of_perm_of_sorted
    (((List.perm_insertionSort strLe l₁).trans h).trans (List.perm_insertionSort strLe l₂).symm)
    (List.sorted_insertionSort strLe l₁) (List.sorted_insertionSort strLe l₂)

/-- Sample canonical path strings. -/
def pRs1 : String := "/w/a.rs"

/-- Another sample canonical path string. -/
def pRs2 : String := "/w/b.rs"

/-- C1: for every Configuration whose src list is a permutation of another
Configuration's src list (the same set of canonical absolute paths in any
order), `src_hash` returns the identical identifier string for both. -/
theorem srcHash_perm_invariant (o₁ o₂ : Options) (h : o₁.src.Perm o₂.src) :
    o₁.src_hash = o₂.src_hash := by
  unfold Options.src_hash Options.srcBytes
  rw [sortedSrc_perm o₁.src o₂.src h]

/-- C1 witness: the two orders of a concrete two-path set hash alike. -/
theorem srcHash_perm_invariant_witness :
    Options.src_hash { src := [pRs2, pRs1] } = Options.src_hash { src := [pRs1, pRs2] } :=
  srcHash_perm_invariant _ _ (by decide)

/-! ## The empty-source identifier (C10) -/

/-- C10: `src_hash` is total and constant on configurations with empty
`src` (the `--stdin` case): it is the base-58 encoding of the hash of the
empty byte sequence, so all such invocations get the same
`temp_dirname`. -/
theorem srcHash_empty_constant (o : Options) (h : o.src = []) :
    o.src_hash = bs58encode (sha1Bytes []) ∧
      o.temp_dirname = tempNamePre ++ bs58encode (sha1Bytes []) := by
  have hb : o.srcBytes = [] := by
    unfold Options.srcBytes
    rw [h]
    rfl
  constructor
  · unfold Options.src_hash
    rw [hb]
  · unfold Options.temp_dirname Options.src_hash
    rw [hb]

/-- C10 witness: a concrete stdin-mode configuration hits the constant. -/
theorem srcHash_empty_constant_witness :
    Options.src_hash { stdin := true } = bs58encode (sha1Bytes []) ∧
      Options.temp_dirname { stdin := true } = tempNamePre ++ bs58encode (sha1Bytes []) :=
  srcHash_empty_constant { stdin := true } rfl

/-! ## Distinct source sets can feed identical byte streams (C2) -/

/-- A single two-component canonical path. -/
def pSlashAB : String := "/a/b"

/-- A one-component canonical path. -/
def pSlashA : String := "/a"

/-- Another one-component canonical path. -/
def pSlashB : String := "/b"

/-- A configuration whose source set is the single path `/a/b`. -/
def collideOne : Options := { src := [pSlashAB] }

/-- A configuration whose source set is the pair `/a`, `/b`. -/
def collideTwo : Options := { src := [pSlashA, pSlashB] }

/-- C2 counterexample: the two source sets differ by at least one element,
yet the byte streams fed to the hash coincide (the sorted paths are
concatenated with no separator), so `src_hash` collides. -/
theorem srcHash_distinct_sets_collision :
    ¬ collideOne.src.Perm collideTwo.src ∧
      collideOne.srcBytes = collideTwo.srcBytes ∧
      collideOne.src_hash = collideTwo.src_hash := by
  have hb : collideOne.srcBytes = collideTwo.srcBytes := by decide
  exact ⟨by decide, hb, congrArg (fun b => bs58encode (sha1Bytes b)) hb⟩

/-! ## Helper lemmas about `Options.parse` -/

/-- The sample binary-name token. -/
def binTok : String := "cargo-play"

/-- A sample positional source token. -/
def srcTok : String := "a.rs"

theorem find?_append_none {α : Type} (p : α → Bool) (l1 l2 : List α)
    (h : ∀ x ∈ l1, p x = false) : (l1 ++ l2).find? p = l2.find? p := by
  induction l1 with
  | nil => rfl
  | cons a r ih =>
    rw [List.cons_append, List.find?_cons_of_neg _ (by simp [h a (List.mem_cons_self a r)])]
    exact ih (fun x hx => h x (List.mem_cons_of_mem a hx))

theorem mapOk_ok (f : Options → Options) (r : Except CargoPlayError Options) (o : Options)
    (h : mapOk f r = ParseResult.ok o) : ∃ o', r = Except.ok o' ∧ o = f o' := by
  cases r with
  | error e => simp [mapOk] at h
  | ok o' =>
    simp only [mapOk, ParseResult.ok.injEq] at h
    exact ⟨o', rfl, h.symm⟩

theorem parse_unfold (fs : FileSystem) (argv : List String) (hlen : ¬ argv.length < 2) :
    Options.parse fs argv =
      mapOk (fun o => o.with_toolchain (((argStream argv).find? startsPlus).map stripPlus))
        (from_iter fs ((argStream argv).filter fun x => !startsPlus x)) := by
  simp only [Options.parse, if_neg hlen]

theorem genericParse_eq_finish (fs : FileSystem) (toks : List String) (acc : RawOpts)
    (hc : collectTokens (beforeSep toks) = Except.ok acc) :
    genericParse fs toks = finishParse fs toks acc := by
  unfold genericParse
  rw [hc]

theorem finishParse_eq_checks (fs : FileSystem) (toks : List String) (acc : RawOpts)
    (ed : RustEdition) (he : editionResolve acc = Except.ok ed) :
    finishParse fs toks acc = checksParse fs toks acc ed := by
  unfold finishParse
  rw [he]

theorem finishParse_edition_error (fs : FileSystem) (toks : List String) (acc : RawOpts)
    (e : CargoPlayError) (he : editionResolve acc = Except.error e) :
    finishParse fs toks acc = Except.error e := by
  unfold finishParse
  rw [he]

theorem buildParse_eq_ok (fs : FileSystem) (toks : List String) (acc : RawOpts)
    (ed : RustEdition) (src : List String)
    (hv : validateSrc fs acc.srcTokens = Except.ok src) :
    buildParse fs toks acc ed = Except.ok (mkOptions acc ed src (afterSep toks)) := by
  unfold buildParse
  rw [hv]

theorem buildParse_error (fs : FileSystem) (toks : List String) (acc : RawOpts)
    (ed : RustEdition) (e : CargoPlayError)
    (hv : validateSrc fs acc.srcTokens = Except.error e) :
    buildParse fs toks acc ed = Except.error e := by
  unfold buildParse
  rw [hv]

theorem genericParse_ok_args (fs : FileSystem) (toks : List String) (o : Options)
    (h : genericParse fs toks = Except.ok o) : o.args = afterSep toks := by
  cases hc : collectTokens (beforeSep toks) with
  | error e => rw [genericParse, hc] at h; cases h
  | ok acc =>
    rw [genericParse_eq_finish fs toks acc hc] at h
    cases he : editionResolve acc with
    | error e => rw [finishParse_edition_error fs toks acc e he] at h; cases h
    | ok ed =>
      rw [finishParse_eq_checks fs toks acc ed he, checksParse] at h
      by_cases hm : 2 ≤ modeFlagCount acc
      · rw [if_pos hm] at h; cases h
      · rw [if_neg hm] at h
        by_cases hs : (acc.srcTokens.isEmpty && !acc.stdin) = true
        · rw [if_pos hs] at h; cases h
        · rw [if_neg hs] at h
          cases hv : validateSrc fs acc.srcTokens with
          | error e => rw [buildParse_error fs toks acc ed e hv] at h; cases h
          | ok src =>
            rw [buildParse_eq_ok fs toks acc ed src hv] at h
            injection h with h'
            rw [← h']
            rfl

theorem genericParse_ok_edition (fs : FileSystem) (toks : List String) (o : Options)
    (acc : RawOpts) (hc : collectTokens (beforeSep toks) = Except.ok acc)
    (h : genericParse fs toks = Except.ok o) :
    editionResolve acc = Except.ok o.edition := by
  rw [genericParse_eq_finish fs toks acc hc] at h
  cases he : editionResolve acc with
  | error e => rw [finishParse_edition_error fs toks acc e he] at h; cases h
  | ok ed =>
    rw [finishParse_eq_checks fs toks acc ed he, checksParse] at h
    by_cases hm : 2 ≤ modeFlagCount acc
    · rw [if_pos hm] at h; cases h
    · rw [if_neg hm] at h
      by_cases hs : (acc.srcTokens.isEmpty && !acc.stdin) = true
      · rw [if_pos hs] at h; cases h
      · rw [if_neg hs] at h
        cases hv : validateSrc fs acc.srcTokens with
        | error e => rw [buildParse_error fs toks acc ed e hv] at h; cases h
        | ok src =>
          rw [buildParse_eq_ok fs toks acc ed src hv] at h
          injection h with h'
          rw [← h']
          exact congrArg Except.ok rfl

theorem genericParse_conflict (fs : FileSystem) (toks : List String) (acc : RawOpts)
    (hc : collectTokens (beforeSep toks) = Except.ok acc)
    (he : (editionResolve acc).isOk = true) (hm : 2 ≤ modeFlagCount acc) :
    genericParse fs toks = Except.error CargoPlayError.ConflictingMode := by
  rw [genericParse_eq_finish fs toks acc hc]
  cases heds : editionResolve acc with
  | error e => rw [heds] at he; simp [Except.isOk, Except.toBool] at he
  | ok ed =>
    rw [finishParse_eq_checks fs toks acc ed heds, checksParse, if_pos hm]

theorem genericParse_invalid_edition (fs : FileSystem) (toks : List String) (acc : RawOpts)
    (t : String) (hc : collectTokens (beforeSep toks) = Except.ok acc)
    (ht : acc.editionText = some t)
    (h15 : t ≠ "2015") (h18 : t ≠ "2018") (h21 : t ≠ "2021") :
    genericParse fs toks = Except.error (CargoPlayError.InvalidEdition t) := by
  have hsome : editionResolve acc = RustEdition.from_str t := by
    unfold editionResolve
    rw [ht]
  have hres : editionResolve acc = Except.error (CargoPlayError.InvalidEdition t) := by
    rw [hsome]
    unfold RustEdition.from_str
    rw [if_neg h15, if_neg h18, if_neg h21]
  rw [genericParse_eq_finish fs toks acc hc]
  exact finishParse_edition_error fs toks acc _ hres

/-! ## Help on short argument vectors (C6) -/

/-- C6: with fewer than two raw tokens, `Options::parse` prints usage and
returns the no-op signal, which is a different outcome from every
structured error. -/
theorem parse_short_argv_help (fs : FileSystem) (argv : List String)
    (h : argv.length < 2) :
    Options.parse fs argv = ParseResult.help ∧
      ∀ e : CargoPlayError, ParseResult.help ≠ ParseResult.error e :=
  ⟨by simp only [Options.parse, if_pos h], fun e he => ParseResult.noConfusion he⟩

/-- C6 witness: a one-token invocation (just the program name). -/
theorem parse_short_argv_help_witness :
    Options.parse testFS [binTok] = ParseResult.help ∧
      ParseResult.help ≠ ParseResult.error CargoPlayError.NoInputProvided :=
  ⟨(parse_short_argv_help testFS [binTok] (by decide)).1,
    (parse_short_argv_help testFS [binTok] (by decide)).2 CargoPlayError.NoInputProvided⟩

/-! ## Conflicting mode selection (C7) -/

/-- C7: an argument vector whose generic token collection supplies two or
more of the mode-group flags fails with `ConflictingMode` on every
filesystem (so before, and independent of, any source-file validation),
and no Configuration is returned. -/
theorem parse_conflicting_mode (fs : FileSystem) (argv : List String) (acc : RawOpts)
    (hlen : 2 ≤ argv.length)
    (hcol : collectTokens (beforeSep (((argStream argv).filter fun x => !startsPlus x).tail)) =
      Except.ok acc)
    (hed : (editionResolve acc).isOk = true)
    (hmode : 2 ≤ modeFlagCount acc) :
    Options.parse fs argv = ParseResult.error CargoPlayError.ConflictingMode := by
  rw [parse_unfold fs argv (by omega)]
  unfold from_iter
  rw [genericParse_conflict fs _ acc hcol hed hmode]
  rfl

/-- The `--test` token. -/
def tokTest : String := "--test"

/-- The `--check` token. -/
def tokCheck : String := "--check"

/-- The raw collection produced by `--test --check a.rs`. -/
def acc7 : RawOpts := { test := true, check := true, srcTokens := [srcTok] }

/-- C7 witness: `--test --check` conflicts even on a filesystem where the
source file does not exist. -/
theorem parse_conflicting_mode_witness :
    Options.parse emptyFS [binTok, tokTest, tokCheck, srcTok] =
      ParseResult.error CargoPlayError.ConflictingMode :=
  parse_conflicting_mode emptyFS [binTok, tokTest, tokCheck, srcTok] acc7
    (by decide) (by decide) (by decide) (by decide)

/-! ## Edition validation (C8) -/

/-- C8: an `--edition` value outside the closed set fails with
`InvalidEdition` carrying the offending text, and an absent `--edition`
yields the default 2021 edition. -/
theorem parse_edition_validation :
    (∀ (fs : FileSystem) (argv : List String) (acc : RawOpts) (t : String),
        2 ≤ argv.length →
        collectTokens (beforeSep (((argStream argv).filter fun x => !startsPlus x).tail)) =
          Except.ok acc →
        acc.editionText = some t →
        t ≠ "2015" → t ≠ "2018" → t ≠ "2021" →
        Options.parse fs argv = ParseResult.error (CargoPlayError.InvalidEdition t)) ∧
      (∀ (fs : FileSystem) (argv : List String) (acc : RawOpts) (o : Options),
        collectTokens (beforeSep (((argStream argv).filter fun x => !startsPlus x).tail)) =
          Except.ok acc →
        acc.editionText = none →
        Options.parse fs argv = ParseResult.ok o →
        o.edition = RustEdition.E2021) := by
  constructor
  · intro fs argv acc t hlen hcol ht h15 h18 h21
    rw [parse_unfold fs argv (by omega)]
    unfold from_iter
    rw [genericParse_invalid_edition fs _ acc t hcol ht h15 h18 h21]
    rfl
  · intro fs argv acc o hcol hnone hmain
    by_cases hlen : argv.length < 2
    · rw [Options.parse, if_pos hlen] at hmain
      cases hmain
    · rw [parse_unfold fs argv hlen] at hmain
      obtain ⟨o', hr, ho⟩ := mapOk_ok _ _ _ hmain
      unfold from_iter at hr
      have hed := genericParse_ok_edition fs _ o' acc hcol hr
      have hres : editionResolve acc = Except.ok RustEdition.E2021 := by
        unfold editionResolve
        rw [hnone]
      rw [hres] at hed
      injection hed with hed'
      rw [ho]
      exact hed'.symm

/-- The `--edition` token. -/
def tokEdition : String := "--edition"

/-- The rejected edition text of the C8 witness. -/
def tok2016 : String := "2016"

/-- The raw collection produced by `--edition 2016 a.rs`. -/
def acc8a : RawOpts := { editionText := some tok2016, srcTokens := [srcTok] }

/-- The raw collection produced by `a.rs` alone. -/
def acc8b : RawOpts := { srcTokens := [srcTok] }

/-- The configuration produced by parsing `a.rs` alone. -/
def opts8b : Options := { src := [srcTok] }

/-- C8 witness: `--edition 2016` fails with `InvalidEdition "2016"`, and a
parse without `--edition` resolves to the 2021 edition. -/
theorem parse_edition_validation_witness :
    Options.parse testFS [binTok, tokEdition, tok2016, srcTok] =
        ParseResult.error (CargoPlayError.InvalidEdition tok2016) ∧
      opts8b.edition = RustEdition.E2021 :=
  ⟨parse_edition_validation.1 testFS [binTok, tokEdition, tok2016, srcTok] acc8a tok2016
      (by decide) (by decide) (by decide) (by decide) (by decide) (by decide),
    parse_edition_validation.2 testFS [binTok, srcTok] acc8b opts8b
      (by decide) (by decide) (by decide)⟩

/-! ## The toolchain field comes only from the `+` extraction (C9) -/

/-- C9: every successful parse has its toolchain field equal to the result
of the `+`-token extraction (`None` when no token begins with `+`); a
value supplied through `-t`/`--toolchain` is unconditionally overwritten
by the final enrichment step. -/
theorem parse_toolchain_overwritten (fs : FileSystem) (argv : List String) (o : Options)
    (h : Options.parse fs argv = ParseResult.ok o) :
    o.toolchain = ((argStream argv).find? startsPlus).map stripPlus := by
  by_cases hlen : argv.length < 2
  · rw [Options.parse, if_pos hlen] at h
    cases h
  · rw [parse_unfold fs argv hlen] at h
    obtain ⟨o', hr, ho⟩ := mapOk_ok _ _ _ h
    rw [ho]
    rfl

/-- The `-t` token. -/
def tokTFlag : String := "-t"

/-- The named toolchain value of the C9 witness. -/
def tokFoo : String := "foo"

/-- The configuration produced by `-t foo a.rs`: the named flag's value is
overwritten by the (empty) extraction. -/
def opts9 : Options := { src := [srcTok] }

/-- C9 witness: `-t foo` is parsed but the resulting toolchain is `none`
because no `+` token was present. -/
theorem parse_toolchain_overwritten_witness :
    Options.parse testFS [binTok, tokTFlag, tokFoo, srcTok] = ParseResult.ok opts9 ∧
      opts9.toolchain = none := by
  have h : Options.parse testFS [binTok, tokTFlag, tokFoo, srcTok] = ParseResult.ok opts9 := by
    decide
  refine ⟨h, ?_⟩
  rw [parse_toolchain_overwritten testFS _ opts9 h]
  decide

/-! ## Toolchain extraction (C3, C4) -/

/-- A first `+` token. -/
def plusAlpha : String := "+alpha"

/-- A second `+` token. -/
def plusBeta : String := "+beta"

/-- The toolchain of a successful outcome. -/
def resultToolchain : ParseResult → Option (Option String)
  | ParseResult.ok o => some o.toolchain
  | _ => none

/-- C3 counterexample: with two `+` tokens in the stream, the recorded
toolchain override is the remainder of the FIRST one found (the source
uses `Iterator::find`), not of the last. -/
theorem toolchain_last_wins_refuted :
    resultToolchain (Options.parse testFS [binTok, plusAlpha, plusBeta, srcTok]) =
        some (some (stripPlus plusAlpha)) ∧
      stripPlus plusAlpha ≠ stripPlus plusBeta :=
  ⟨by decide, by decide⟩

/-- C3 (amended): with several `+` tokens, the first occurrence wins —
`Options::parse` records the remainder of the first such token and still
removes every such token before generic flag parsing. -/
theorem toolchain_first_occurrence_wins (fs : FileSystem) (argv : List String)
    (pre mid post : List String) (t u : String)
    (hs : argStream argv = pre ++ t :: (mid ++ u :: post))
    (hpre : ∀ x ∈ pre, startsPlus x = false)
    (ht : startsPlus t = true) (hu : startsPlus u = true)
    (hlen : 2 ≤ argv.length) :
    Options.parse fs argv =
      mapOk (fun o => o.with_toolchain (some (stripPlus t)))
        (from_iter fs (pre ++ ((mid.filter fun x => !startsPlus x) ++
          (post.filter fun x => !startsPlus x)))) := by
  have hfind : (pre ++ t :: (mid ++ u :: post)).find? startsPlus = some t := by
    rw [find?_append_none startsPlus pre _ hpre]
    exact List.find?_cons_of_pos _ ht
  have hfilt : (pre ++ t :: (mid ++ u :: post)).filter (fun x => !startsPlus x) =
      pre ++ ((mid.filter fun x => !startsPlus x) ++ (post.filter fun x => !startsPlus x)) := by
    rw [List.filter_append, List.filter_cons_of_neg (by simp [ht]), List.filter_append,
      List.filter_cons_of_neg (by simp [hu]),
      List.filter_eq_self.mpr (fun a ha => by simp [hpre a ha])]
  rw [parse_unfold fs argv (by omega), hs, hfind, hfilt]
  rfl

/-- C3 witness: the amended first-wins rule at the counterexample input. -/
theorem toolchain_first_occurrence_wins_witness :
    Options.parse testFS [binTok, plusAlpha, plusBeta, srcTok] =
      mapOk (fun o => o.with_toolchain (some (stripPlus plusAlpha)))
        (from_iter testFS ([binTok] ++ ((([] : List String).filter fun x => !startsPlus x) ++
          ([srcTok].filter fun x => !startsPlus x)))) :=
  toolchain_first_occurrence_wins testFS [binTok, plusAlpha, plusBeta, srcTok]
    [binTok] [] [srcTok] plusAlpha plusBeta (by decide) (by decide) (by decide) (by decide)
    (by decide)

/-- C4: when exactly one token of the (sentinel-adjusted) stream begins
with `+`, parsing is generic parsing of the stream with that token
removed, enriched with the toolchain equal to the token text after the
leading `+`. -/
theorem parse_single_plus_token (fs : FileSystem) (argv : List String)
    (pre post : List String) (t : String)
    (hs : argStream argv = pre ++ t :: post)
    (ht : startsPlus t = true)
    (hpre : ∀ x ∈ pre, startsPlus x = false)
    (hpost : ∀ x ∈ post, startsPlus x = false)
    (hlen : 2 ≤ argv.length) :
    Options.parse fs argv =
      mapOk (fun o => o.with_toolchain (some (stripPlus t))) (from_iter fs (pre ++ post)) := by
  have hfind : (pre ++ t :: post).find? startsPlus = some t := by
    rw [find?_append_none startsPlus pre _ hpre]
    exact List.find?_cons_of_pos _ ht
  have hfilt : (pre ++ t :: post).filter (fun x => !startsPlus x) = pre ++ post := by
    rw [List.filter_append, List.filter_cons_of_neg (by simp [ht]),
      List.filter_eq_self.mpr (fun a ha => by simp [hpre a ha]),
      List.filter_eq_self.mpr (fun a ha => by simp [hpost a ha])]
  rw [parse_unfold fs argv (by omega), hs, hfind, hfilt]
  rfl

/-- The `+nightly` token of the C4 witness. -/
def plusNightly : String := "+nightly"

/-- C4 witness: `+nightly` anywhere in the stream is captured as the
toolchain `nightly` and removed from generic parsing. -/
theorem parse_single_plus_token_witness :
    Options.parse testFS [binTok, plusNightly, srcTok] =
      mapOk (fun o => o.with_toolchain (some (stripPlus plusNightly)))
        (from_iter testFS ([binTok] ++ [srcTok])) :=
  parse_single_plus_token testFS [binTok, plusNightly, srcTok] [binTok] [srcTok] plusNightly
    (by decide) (by decide) (by decide) (by decide) (by decide)

/-! ## Trailing arguments after the separator (C5) -/

/-- A `+` token placed after the separator. -/
def plusX : String := "+x"

/-- An ordinary trailing token. -/
def tokY : String := "y"

/-- The trailing arguments of a successful outcome. -/
def resultArgs : ParseResult → Option (List String)
  | ParseResult.ok o => some o.args
  | _ => none

/-- C5 counterexample: a token beginning with `+` that appears after the
`--` separator is removed by the toolchain pre-filter and does NOT reach
`args`, so the post-separator tokens are not captured verbatim. -/
theorem args_verbatim_refuted :
    resultArgs (Options.parse testFS [binTok, srcTok, sepTok, plusX, tokY]) = some [tokY] ∧
      ([tokY] : List String) ≠ [plusX, tokY] :=
  ⟨by decide, by decide⟩

theorem afterSep_cons_ne (a : String) (r : List String) (h : ¬ a = sepTok) :
    afterSep (a :: r) = afterSep r := by
  simp only [afterSep]
  rw [if_neg h]

theorem afterSep_cons_sep (r : List String) : afterSep (sepTok :: r) = r := by
  simp [afterSep]

theorem afterSep_filter (l : List String) :
    afterSep (l.filter fun x => !startsPlus x) = (afterSep l).filter fun x => !startsPlus x := by
  induction l with
  | nil => rfl
  | cons a r ih =>
    by_cases hsep : a = sepTok
    · subst hsep
      rw [List.filter_cons_of_pos (by decide), afterSep_cons_sep, afterSep_cons_sep]
    · by_cases hp : (!startsPlus a) = true
      · rw [@List.filter_cons_of_pos _ (fun x => !startsPlus x) a r hp,
          afterSep_cons_ne a _ hsep, afterSep_cons_ne a r hsep]
        exact ih
      · rw [@List.filter_cons_of_neg _ (fun x => !startsPlus x) a r hp,
          afterSep_cons_ne a r hsep]
        exact ih

/-- C5 (amended): on every successful parse the captured `args` are the
tokens after the first `--` of the (sentinel-adjusted) stream, in order
and uninterpreted, EXCEPT that tokens beginning with `+` have been
removed by the toolchain pre-filter. -/
theorem args_after_sep_filtered (fs : FileSystem) (argv : List String)
    (a : String) (rest : List String) (o : Options)
    (hs : argStream argv = a :: rest)
    (ha : startsPlus a = false)
    (h : Options.parse fs argv = ParseResult.ok o) :
    o.args = (afterSep rest).filter fun x => !startsPlus x := by
  by_cases hlen : argv.length < 2
  · rw [Options.parse, if_pos hlen] at h
    cases h
  · rw [parse_unfold fs argv hlen] at h
    obtain ⟨o', hr, ho⟩ := mapOk_ok _ _ _ h
    rw [hs, List.filter_cons_of_pos (by simp [ha])] at hr
    unfold from_iter at hr
    rw [List.tail_cons] at hr
    have hargs := genericParse_ok_args fs _ o' hr
    rw [ho]
    show o'.args = _
    rw [hargs, afterSep_filter]

/-- The configuration produced by `a.rs -- +x y` on the all-files
filesystem. -/
def opts5 : Options := { toolchain := some (stripPlus plusX), src := [srcTok], args := [tokY] }

/-- C5 witness: the amended capture rule at the counterexample input. -/
theorem args_after_sep_filtered_witness :
    Options.parse testFS [binTok, srcTok, sepTok, plusX, tokY] = ParseResult.ok opts5 ∧
      opts5.args = (afterSep [srcTok, sepTok, plusX, tokY]).filter fun x => !startsPlus x := by
  have h : Options.parse testFS [binTok, srcTok, sepTok, plusX, tokY] = ParseResult.ok opts5 := by
    decide
  exact ⟨h, args_after_sep_filtered testFS [binTok, srcTok, sepTok, plusX, tokY] binTok
    [srcTok, sepTok, plusX, tokY] opts5 (by decide) (by decide) h⟩

/-! ## Injectivity of the identifier encoding (C2)

`bs58encode` is injective on byte lists of a common length whose entries
are bytes, and a SHA-1 digest is such a list; hence distinct digests give
distinct identifiers. -/

theorem foldl_beNat_acc (l : List Nat) (acc : Nat) :
    l.foldl (fun a b => a * 256 + b) acc =
      acc * 256 ^ l.length + l.foldl (fun a b => a * 256 + b) 0 := by
  induction l generalizing acc with
  | nil => simp
  | cons x r ih =>
    simp only [List.foldl_cons, List.length_cons]
    rw [ih (acc * 256 + x), ih (0 * 256 + x)]
    ring

theorem beNat_cons (x : Nat) (r : List Nat) :
    beNat (x :: r) = x * 256 ^ r.length + beNat r := by
  unfold beNat
  simp only [List.foldl_cons]
  rw [foldl_beNat_acc r (0 * 256 + x)]
  ring_nf

theorem beNat_lt (l : List Nat) (h : ∀ x ∈ l, x < 256) : beNat l < 256 ^ l.length := by
  induction l with
  | nil => simp [beNat]
  | cons x r ih =>
    rw [beNat_cons, List.length_cons, pow_succ]
    have hx : x < 256 := h x (List.mem_cons_self x r)
    have hr : beNat r < 256 ^ r.length :=
      ih (fun y hy => h y (List.mem_cons_of_mem x hy))
    calc x * 256 ^ r.length + beNat r < x * 256 ^ r.length + 256 ^ r.length := by omega
    _ = (x + 1) * 256 ^ r.length := by ring
    _ ≤ 256 * 256 ^ r.length := Nat.mul_le_mul_right _ (by omega)
    _ = 256 ^ r.length * 256 := by ring

theorem beNat_inj : ∀ l1 l2 : List Nat, l1.length = l2.length →
    (∀ x ∈ l1, x < 256) → (∀ x ∈ l2, x < 256) → beNat l1 = beNat l2 → l1 = l2
  | [], [], _, _, _, _ => rfl
  | [], _ :: _, hlen, _, _, _ => by simp at hlen
  | _ :: _, [], hlen, _, _, _ => by simp at hlen
  | a :: r1, b :: r2, hlen, h1, h2, heq => by
    simp only [List.length_cons, Nat.succ.injEq] at hlen
    rw [beNat_cons, beNat_cons, hlen] at heq
    have hv1 : beNat r1 < 256 ^ r2.length := by
      rw [← hlen]
      exact beNat_lt r1 (fun y hy => h1 y (List.mem_cons_of_mem a hy))
    have hv2 : beNat r2 < 256 ^ r2.length :=
      beNat_lt r2 (fun y hy => h2 y (List.mem_cons_of_mem b hy))
    have hK : 0 < 256 ^ r2.length := pow_pos (by decide) _
    have hmod : (beNat r1 + a * 256 ^ r2.length) % 256 ^ r2.length =
        (beNat r2 + b * 256 ^ r2.length) % 256 ^ r2.length := by
      rw [Nat.add_comm (beNat r1) _, Nat.add_comm (beNat r2) _]
      rw [heq]
    rw [Nat.add_mul_mod_self_right, Nat.add_mul_mod_self_right,
      Nat.mod_eq_of_lt hv1, Nat.mod_eq_of_lt hv2] at hmod
    have hdiv : (beNat r1 + a * 256 ^ r2.length) / 256 ^ r2.length =
        (beNat r2 + b * 256 ^ r2.length) / 256 ^ r2.length := by
      rw [Nat.add_comm (beNat r1) _, Nat.add_comm (beNat r2) _]
      rw [heq]
    rw [Nat.add_mul_div_right _ _ hK, Nat.add_mul_div_right _ _ hK,
      Nat.div_eq_of_lt hv1, Nat.div_eq_of_lt hv2] at hdiv
    have hab : a = b := by omega
    rw [hab, beNat_inj r1 r2 hlen
      (fun y hy => h1 y (List.mem_cons_of_mem a hy))
      (fun y hy => h2 y (List.mem_cons_of_mem b hy)) hmod]

/-- Value of a little-endian base-58 digit list. -/
def ofB58LE (l : List Nat) : Nat := l.foldr (fun d acc => d + 58 * acc) 0

theorem b58DigitsGo_zero (fuel : Nat) : b58DigitsGo fuel 0 = [] := by
  cases fuel <;> simp [b58DigitsGo]

theorem b58DigitsGo_succ (fuel n : Nat) (h0 : n ≠ 0) :
    b58DigitsGo (fuel + 1) n = n % 58 :: b58DigitsGo fuel (n / 58) := by
  simp [b58DigitsGo, if_neg h0]

theorem ofB58LE_go (fuel : Nat) : ∀ n : Nat, n ≤ fuel → ofB58LE (b58DigitsGo fuel n) = n := by
  induction fuel with
  | zero =>
    intro n hn
    have : n = 0 := by omega
    subst this
    rfl
  | succ fuel ih =>
    intro n hn
    by_cases h0 : n = 0
    · subst h0
      rw [b58DigitsGo_zero]
      rfl
    · rw [b58DigitsGo_succ fuel n h0]
      have hlt : n / 58 < n := Nat.div_lt_self (Nat.pos_of_ne_zero h0) (by decide)
      have hrec := ih (n / 58) (by omega)
      unfold ofB58LE at hrec ⊢
      simp only [List.foldr_cons]
      rw [hrec]
      exact Nat.mod_add_div n 58

theorem b58DigitsLE_val (n : Nat) : ofB58LE (b58DigitsLE n) = n :=
  ofB58LE_go n n le_rfl

theorem b58DigitsGo_lt (fuel : Nat) : ∀ n, ∀ d ∈ b58DigitsGo fuel n, d < 58 := by
  induction fuel with
  | zero =>
    intro n d hd
    simp [b58DigitsGo] at hd
  | succ fuel ih =>
    intro n d hd
    by_cases h0 : n = 0
    · subst h0
      rw [b58DigitsGo_zero] at hd
      simp at hd
    · rw [b58DigitsGo_succ fuel n h0] at hd
      rcases List.mem_cons.mp hd with h | h
      · rw [h]
        exact Nat.mod_lt _ (by decide)
      · exact ih (n / 58) d h

theorem b58DigitsGo_ne_nil (fuel n : Nat) (h0 : n ≠ 0) (hn : n ≤ fuel) :
    b58DigitsGo fuel n ≠ [] := by
  cases fuel with
  | zero => omega
  | succ fuel =>
    rw [b58DigitsGo_succ fuel n h0]
    simp

theorem getLast?_cons_ne (x : Nat) (l : List Nat) (h : l ≠ []) :
    (x :: l).getLast? = l.getLast? := by
  cases l with
  | nil => exact absurd rfl h
  | cons y r => rfl

theorem b58DigitsGo_getLast (fuel : Nat) : ∀ n d, n ≠ 0 → n ≤ fuel →
    (b58DigitsGo fuel n).getLast? = some d → d ≠ 0 := by
  induction fuel with
  | zero =>
    intro n d h0 hn _
    omega
  | succ fuel ih =>
    intro n d h0 hn hd
    rw [b58DigitsGo_succ fuel n h0] at hd
    by_cases hq : n / 58 = 0
    · rw [hq, b58DigitsGo_zero] at hd
      have hlt : n < 58 := (Nat.div_eq_zero_iff (by decide)).mp hq
      have : n % 58 = d := by
        simpa [List.getLast?] using hd
      rw [Nat.mod_eq_of_lt hlt] at this
      omega
    · have hlt : n / 58 < n := Nat.div_lt_self (Nat.pos_of_ne_zero h0) (by decide)
      rw [getLast?_cons_ne _ _ (b58DigitsGo_ne_nil fuel (n / 58) hq (by omega))] at hd
      exact ih (n / 58) d hq (by omega) hd

theorem b58Char_inj_lt : ∀ i, i < 58 → ∀ j, j < 58 → b58Char i = b58Char j → i = j := by
  decide

theorem b58Char_ne_zeroChar : ∀ d, d < 58 → d ≠ 0 → b58Char d ≠ b58Zero := by
  decide

theorem map_b58Char_inj : ∀ l1 l2 : List Nat, (∀ x ∈ l1, x < 58) → (∀ x ∈ l2, x < 58) →
    l1.map b58Char = l2.map b58Char → l1 = l2
  | [], [], _, _, _ => rfl
  | [], _ :: _, _, _, h => by simp at h
  | _ :: _, [], _, _, h => by simp at h
  | a :: r1, b :: r2, h1, h2, h => by
    simp only [List.map_cons, List.cons.injEq] at h
    rw [b58Char_inj_lt a (h1 a (List.mem_cons_self a r1)) b (h2 b (List.mem_cons_self b r2)) h.1,
      map_b58Char_inj r1 r2 (fun y hy => h1 y (List.mem_cons_of_mem a hy))
        (fun y hy => h2 y (List.mem_cons_of_mem b hy)) h.2]

theorem replicate_append_inj (c : Char) :
    ∀ (z1 z2 : Nat) (s1 s2 : List Char), s1.head? ≠ some c → s2.head? ≠ some c →
      List.replicate z1 c ++ s1 = List.replicate z2 c ++ s2 → z1 = z2 ∧ s1 = s2
  | 0, 0, s1, s2, _, _, h => ⟨rfl, by simpa using h⟩
  | 0, z2 + 1, s1, s2, hs1, _, h => by
    exfalso
    apply hs1
    simp only [List.replicate_succ, List.replicate_zero, List.nil_append,
      List.cons_append] at h
    rw [h]
    rfl
  | z1 + 1, 0, s1, s2, _, hs2, h => by
    exfalso
    apply hs2
    simp only [List.replicate_succ, List.replicate_zero, List.nil_append,
      List.cons_append] at h
    rw [← h]
    rfl
  | z1 + 1, z2 + 1, s1, s2, hs1, hs2, h => by
    simp only [List.replicate_succ, List.cons_append, List.cons.injEq] at h
    obtain ⟨hz, hs⟩ := replicate_append_inj c z1 z2 s1 s2 hs1 hs2 h.2
    exact ⟨by omega, hs⟩

theorem mapped_digits_head (n : Nat) :
    ((b58DigitsLE n).reverse.map b58Char).head? ≠ some b58Zero := by
  cases hrev : (b58DigitsLE n).reverse with
  | nil => simp
  | cons d rest =>
    have hne : n ≠ 0 := by
      intro h0
      subst h0
      simp [b58DigitsLE, b58DigitsGo] at hrev
    have hlast : (b58DigitsLE n).getLast? = some d := by
      rw [← List.head?_reverse, hrev]
      rfl
    have hd0 : d ≠ 0 := b58DigitsGo_getLast n n d hne le_rfl hlast
    have hmem : d ∈ b58DigitsLE n := by
      have : d ∈ (b58DigitsLE n).reverse := by
        rw [hrev]
        exact List.mem_cons_self d rest
      exact List.mem_reverse.mp this
    have hdlt : d < 58 := b58DigitsGo_lt n n d hmem
    simp only [List.map_cons, List.head?_cons, ne_eq, Option.some.injEq]
    exact b58Char_ne_zeroChar d hdlt hd0

theorem bs58encode_inj (l1 l2 : List Nat) (hlen : l1.length = l2.length)
    (h1 : ∀ x ∈ l1, x < 256) (h2 : ∀ x ∈ l2, x < 256)
    (h : bs58encode l1 = bs58encode l2) : l1 = l2 := by
  unfold bs58encode at h
  injection h with hdata
  obtain ⟨hz, hdig⟩ := replicate_append_inj b58Zero _ _ _ _
    (mapped_digits_head (beNat l1)) (mapped_digits_head (beNat l2)) hdata
  have hrev : (b58DigitsLE (beNat l1)).reverse = (b58DigitsLE (beNat l2)).reverse :=
    map_b58Char_inj _ _
      (fun y hy => b58DigitsGo_lt _ _ y (List.mem_reverse.mp hy))
      (fun y hy => b58DigitsGo_lt _ _ y (List.mem_reverse.mp hy)) hdig
  have hdigs : b58DigitsLE (beNat l1) = b58DigitsLE (beNat l2) := by
    rw [← List.reverse_reverse (b58DigitsLE (beNat l1)), hrev, List.reverse_reverse]
  have hval : beNat l1 = beNat l2 := by
    calc beNat l1 = ofB58LE (b58DigitsLE (beNat l1)) := (b58DigitsLE_val _).symm
    _ = ofB58LE (b58DigitsLE (beNat l2)) := by rw [hdigs]
    _ = beNat l2 := b58DigitsLE_val _
  exact beNat_inj l1 l2 hlen h1 h2 hval

theorem wordBytes_lt (w : Nat) : ∀ x ∈ wordBytes w, x < 256 := by
  intro x hx
  simp only [wordBytes, List.mem_cons, List.not_mem_nil, or_false] at hx
  rcases hx with h | h | h | h <;> subst h <;> exact Nat.mod_lt _ (by decide)

theorem sha1Bytes_length (msg : List Nat) : (sha1Bytes msg).length = 20 := by
  simp [sha1Bytes, wordBytes]

theorem sha1Bytes_lt (msg : List Nat) : ∀ x ∈ sha1Bytes msg, x < 256 := by
  intro x hx
  simp only [sha1Bytes, List.mem_append] at hx
  rcases hx with (((h | h) | h) | h) | h <;> exact wordBytes_lt _ x h

/-- C2 (amended): for two configurations whose src sets differ, `src_hash`
produces different identifiers provided the byte streams fed to the hash
actually differ and the hash is collision-free at these two inputs (the
SHA-1 digests differ) — the counterexample above shows that distinct sets
do not by themselves guarantee distinct byte streams. -/
theorem srcHash_inj_of_digest_ne (o₁ o₂ : Options)
    (hset : ¬ o₁.src.Perm o₂.src)
    (hdig : sha1Bytes o₁.srcBytes ≠ sha1Bytes o₂.srcBytes) :
    o₁.src_hash ≠ o₂.src_hash := by
  intro h
  apply hdig
  apply bs58encode_inj _ _ (by rw [sha1Bytes_length, sha1Bytes_length])
    (sha1Bytes_lt _) (sha1Bytes_lt _)
  exact h

set_option maxRecDepth 200000 in
/-- C2 witness: two concrete one-path sets with distinct digests receive
distinct identifiers. -/
theorem srcHash_inj_of_digest_ne_witness :
    Options.src_hash { src := [pSlashA] } ≠ Options.src_hash { src := [pSlashB] } :=
  srcHash_inj_of_digest_ne { src := [pSlashA] } { src := [pSlashB] }
    (by decide) (by decide)
